import Mathlib

/-!
Verification of the ST20 instruction decoder
(`src/boomerang-plugins/decoder/st20/ST20Decoder.cpp`).

The decoder reads one byte at a time from the instruction stream.  Each byte
splits into a 4-bit function code (high nibble) and a 4-bit operand (low
nibble).  Function codes 2 (`pfix`) and 6 (`nfix`) accumulate into a running
signed 32-bit total and continue the loop; every other function code
terminates the instruction.  The `opr` code (15) uses the total as an index
into a secondary opcode table (with a folding rule for negative totals).

The embedding models the C++ `int` accumulator as a mathematical integer
wrapped into the signed 32-bit range after every arithmetic step (`wrap32`);
byte streams are lists of naturals (each entry one byte as `Util::readByte`
returns it); the fallible decode is a total function into `DecodeOutcome`,
where reading past the end of the supplied stream is the distinguished
outcome `oobRead` (the C++ code performs the read unconditionally, so this
outcome marks a buffer over-read rather than any in-language behaviour),
and the `assert(false)` in the switch's default branch is the outcome
`assertFailed`.
-/

/-- Signed 32-bit wrap-around: the value a C `int` holds after an operation
whose mathematical result is `x` (two's complement). -/
def wrap32 (x : Int) : Int := (x + 2147483648) % 4294967296 - 2147483648

/-- `(instructionData >> 4) & 0xF`: the high nibble of a byte
(ST20Decoder.cpp line 100). -/
def functionCode (b : Nat) : Nat := (b >>> 4) &&& 0xF

/-- `instructionData & 0xF`: the low nibble of a byte, as the C++ code uses it
in `int` arithmetic (ST20Decoder.cpp line 101). -/
def operandOf (b : Nat) : Int := Int.ofNat (b &&& 0xF)

/-- `#define OPR_MASK (1 << 16)` (ST20Decoder.cpp line 40). -/
def OPR_MASK : Int := 65536

/-- `#define OPR_SIGN (1 << 17)` (ST20Decoder.cpp line 41). -/
def OPR_SIGN : Int := 131072

/-- `QString::toUpper` as the decoder uses it: upper-case every character.
(`String.toUpper` itself is avoided because its `mapAux` recursion does not
reduce inside the kernel.) -/
def toUpperStr (s : String) : String := String.mk (s.data.map Char.toUpper)

/-- Bitwise difference on naturals, written with the kernel-accelerated
operations (`Nat.ldiff` itself is defined by well-founded recursion and does
not reduce inside the kernel): bit `i` of the result is
`m.testBit i && !(n.testBit i)`. -/
def natDiff (m n : Nat) : Nat := m &&& (m ^^^ n)

/-- Two's-complement bitwise AND on `Int`, the C `&` on signed integers
(kernel-computable; provably equal to Mathlib's `Int.land`, see
`intAnd_eq_land`). -/
def intAnd (x y : Int) : Int :=
  match x, y with
  | Int.ofNat m, Int.ofNat n => Int.ofNat (m &&& n)
  | Int.ofNat m, Int.negSucc n => Int.ofNat (natDiff m n)
  | Int.negSucc m, Int.ofNat n => Int.ofNat (natDiff n m)
  | Int.negSucc m, Int.negSucc n => Int.negSucc (m ||| n)

/-- Two's-complement bitwise OR on `Int`, the C `|` on signed integers
(kernel-computable; provably equal to Mathlib's `Int.lor`, see
`intOr_eq_lor`). -/
def intOr (x y : Int) : Int :=
  match x, y with
  | Int.ofNat m, Int.ofNat n => Int.ofNat (m ||| n)
  | Int.ofNat m, Int.negSucc n => Int.negSucc (natDiff n m)
  | Int.negSucc m, Int.ofNat n => Int.negSucc (natDiff m n)
  | Int.negSucc m, Int.negSucc n => Int.negSucc (m &&& n)

/-- The `functionNames` table (ST20Decoder.cpp lines 44-61). -/
def functionNames : List String :=
  ["j", "ldlp", "pfix", "ldnl", "ldc", "ldnlp", "nfix", "ldl",
   "adc", "call", "cj", "ajw", "eqc", "stl", "stnl", "opr"]

/-- The non-negative secondary opcode table: the `switch (prefixTotal)` of
`ST20Decoder::getInstructionName` for `prefixTotal >= 0`
(ST20Decoder.cpp lines 229-368). -/
def posOpTable : List (Int × String) :=
  [(0x00, "rev"), (0x01, "lb"), (0x02, "bsub"), (0x03, "endp"),
   (0x04, "diff"), (0x05, "add"), (0x06, "gcall"), (0x07, "in"),
   (0x08, "prod"), (0x09, "gt"), (0x0A, "wsub"), (0x0B, "out"),
   (0x0C, "sub"), (0x0D, "startp"), (0x0E, "outbyte"), (0x0F, "outword"),
   (0x10, "seterr"), (0x12, "resetch"), (0x13, "csub0"), (0x15, "stopp"),
   (0x16, "ladd"), (0x17, "stlb"), (0x18, "sthf"), (0x19, "norm"),
   (0x1A, "ldiv"), (0x1B, "ldpi"), (0x1C, "stlf"), (0x1D, "xdble"),
   (0x1E, "ldpri"), (0x1F, "rem"), (0x20, "ret"), (0x21, "lend"),
   (0x22, "ldtimer"), (0x29, "testerr"), (0x2A, "testpranal"), (0x2B, "tin"),
   (0x2C, "div"), (0x2E, "dist"), (0x2F, "disc"), (0x30, "diss"),
   (0x31, "lmul"), (0x32, "not"), (0x33, "xor"), (0x34, "bcnt"),
   (0x35, "lshr"), (0x36, "lshl"), (0x37, "lsum"), (0x38, "lsub"),
   (0x39, "runp"), (0x3A, "xword"), (0x3B, "sb"), (0x3C, "gajw"),
   (0x3D, "savel"), (0x3E, "saveh"), (0x3F, "wcnt"), (0x40, "shr"),
   (0x41, "shl"), (0x42, "mint"), (0x43, "alt"), (0x44, "altwt"),
   (0x45, "altend"), (0x46, "and"), (0x47, "enbt"), (0x48, "enbc"),
   (0x49, "enbs"), (0x4A, "move"), (0x4B, "or"), (0x4C, "csngl"),
   (0x4D, "ccnt1"), (0x4E, "talt"), (0x4F, "ldiff"), (0x50, "sthb"),
   (0x51, "taltwt"), (0x52, "sum"), (0x53, "mul"), (0x54, "sttimer"),
   (0x55, "stoperr"), (0x56, "cword"), (0x57, "clrhalterr"),
   (0x58, "sethalterr"), (0x59, "testhalterr"), (0x5A, "dup"),
   (0x5B, "move2dinit"), (0x5C, "move2dall"), (0x5D, "move2dnonzero"),
   (0x5E, "move2dzero"), (0x5F, "gtu"), (0x63, "unpacksn"), (0x64, "slmul"),
   (0x65, "sulmul"), (0x68, "satadd"), (0x69, "satsub"), (0x6A, "satmul"),
   (0x6C, "postnormsn"), (0x6D, "roundsn"), (0x6E, "ldtraph"),
   (0x6F, "sttraph"), (0x71, "ldinf"), (0x72, "fmul"), (0x73, "cflerr"),
   (0x74, "crcword"), (0x75, "crcbyte"), (0x76, "bitcnt"),
   (0x77, "bitrevword"), (0x78, "bitrevnbits"), (0x79, "pop"),
   (0x7E, "ldmemstartval"), (0x81, "wsubdb"), (0x9C, "fptesterr"),
   (0xB0, "settimeslice"), (0xB8, "xbword"), (0xB9, "lbx"), (0xBA, "cb"),
   (0xBB, "cbu"), (0xC1, "ssub"), (0xC4, "intdis"), (0xC5, "intenb"),
   (0xC6, "ldtrapped"), (0xC7, "cir"), (0xC8, "ss"), (0xCA, "ls"),
   (0xCB, "sttrapped"), (0xCC, "ciru"), (0xCD, "gintdis"), (0xCE, "gintenb"),
   (0xF0, "devlb"), (0xF1, "devsb"), (0xF2, "devls"), (0xF3, "devss"),
   (0xF4, "devlw"), (0xF5, "devsw"), (0xF6, "null"), (0xF7, "null"),
   (0xF8, "xsword"), (0xF9, "lsx"), (0xFA, "cs"), (0xFB, "csu"),
   (0x17C, "lddevid")]

/-- The negative-range secondary opcode table: the `switch` of
`ST20Decoder::getInstructionName` after the negative total is folded
(ST20Decoder.cpp lines 374-397). -/
def negOpTable : List (Int × String) :=
  [(0x00, "swapqueue"), (0x01, "swaptimer"), (0x02, "insertqueue"),
   (0x03, "timeslice"), (0x04, "signal"), (0x05, "wait"), (0x06, "trapdis"),
   (0x07, "trapenb"), (0x0B, "tret"), (0x0C, "ldshadow"), (0x0D, "stshadow"),
   (0x1F, "iret"), (0x24, "devmove"), (0x2E, "restart"), (0x2F, "causeerror"),
   (0x30, "nop"), (0x4C, "stclock"), (0x4D, "ldclock"), (0x4E, "clockdis"),
   (0x4F, "clockenb"), (0x8C, "ldprodid"), (0x8D, "reboot")]

/-- The folding of a negative total before the negative-range table lookup:
`(~prefixTotal & ~0xF) | (prefixTotal & 0xF)` (ST20Decoder.cpp line 372). -/
def foldNeg (total : Int) : Int :=
  intOr (intAnd (Int.not total) (Int.not 0xF)) (intAnd total 0xF)

/-- `ST20Decoder::getInstructionName` (ST20Decoder.cpp lines 226-401):
non-negative totals index the non-negative table directly; negative totals
are folded first and index the negative-range table.  A miss in either
table is `none` (the C++ `nullptr`). -/
def getInstructionName (prefixTotal : Int) : Option String :=
  if 0 ≤ prefixTotal then
    posOpTable.lookup prefixTotal
  else
    negOpTable.lookup (foldNeg prefixTotal)

/-- The fields of `MachineInstruction` that `ST20Decoder::decodeInstruction`
writes.  Operands are the integer values of the `Const` expressions the
decoder pushes (for jumps and calls, the destination address's value). -/
structure MachineInstruction where
  m_addr : Int
  m_size : Nat
  m_id : Int
  m_valid : Bool
  m_mnem : String
  m_variantID : String
  m_operands : List Int
  deriving DecidableEq, Repr

/-- The possible outcomes of one `decodeInstruction` call.  `ok` is a `true`
return, `fail` a `false` return (the operate-table miss), `oobRead` marks the
unconditional `Util::readByte` running past the end of the supplied stream,
and `assertFailed` the `assert(false)` default branch of the switch. -/
inductive DecodeOutcome where
  | ok (r : MachineInstruction)
  | fail (r : MachineInstruction)
  | oobRead (bytesRead : Nat)
  | assertFailed
  deriving DecidableEq, Repr

/-- The grouped case labels `LDLP, LDNL, LDC, LDNLP, LDL, ADC, AJW, EQC, STL,
STNL` of the decode switch (ST20Decoder.cpp lines 121-130). -/
def isLoadFamilyCode (fc : Nat) : Prop :=
  fc = 1 ∨ fc = 3 ∨ fc = 4 ∨ fc = 5 ∨ fc = 7 ∨
  fc = 8 ∨ fc = 11 ∨ fc = 12 ∨ fc = 13 ∨ fc = 14

instance (fc : Nat) : Decidable (isLoadFamilyCode fc) := by
  unfold isLoadFamilyCode
  infer_instance

/-- The `while (true)` loop of `ST20Decoder::decodeInstruction`
(ST20Decoder.cpp lines 97-210), one constructor argument per piece of loop
state: `total` the running accumulator, `size` the bytes consumed so far
(`result.m_size`), and the remaining byte stream.  `<< 4` on the signed
accumulator is multiplication by 16 with 32-bit wrap-around; `~oper` on the
int-promoted operand is `Int.not`.  On the operate-table miss only
`m_valid := false` and `m_size` are meaningful (the C++ code returns leaving
the other fields as the caller passed them); the model fills the rest with
defaults. -/
def decodeLoop (pc total : Int) (size : Nat) : List Nat → DecodeOutcome
  | [] => DecodeOutcome.oobRead size
  | b :: rest =>
    if functionCode b = 0 then -- ST20_INS_J: unconditional jump
      DecodeOutcome.ok
        { m_addr := pc, m_size := size + 1, m_id := 0, m_valid := true,
          m_mnem := "j", m_variantID := "J",
          m_operands := [pc + Int.ofNat (size + 1) + wrap32 (total + operandOf b)] }
    else if isLoadFamilyCode (functionCode b) then
      DecodeOutcome.ok
        { m_addr := pc, m_size := size + 1,
          m_id := Int.ofNat (functionCode b), m_valid := true,
          m_mnem := functionNames.getD (functionCode b) "",
          m_variantID := toUpperStr (functionNames.getD (functionCode b) ""),
          m_operands := [wrap32 (total + operandOf b)] }
    else if functionCode b = 2 then -- pfix
      decodeLoop pc (wrap32 ((total + operandOf b) * 16)) (size + 1) rest
    else if functionCode b = 6 then -- nfix
      decodeLoop pc (wrap32 ((total + Int.not (operandOf b)) * 16)) (size + 1) rest
    else if functionCode b = 9 then -- ST20_INS_CALL
      DecodeOutcome.ok
        { m_addr := pc, m_size := size + 1, m_id := 9, m_valid := true,
          m_mnem := "call", m_variantID := "CALL",
          m_operands := [pc + Int.ofNat (size + 1) + wrap32 (total + operandOf b)] }
    else if functionCode b = 10 then -- ST20_INS_CJ: conditional jump
      DecodeOutcome.ok
        { m_addr := pc, m_size := size + 1, m_id := 10, m_valid := true,
          m_mnem := "cj", m_variantID := "CJ",
          m_operands := [pc + Int.ofNat (size + 1) + wrap32 (total + operandOf b)] }
    else if functionCode b = 15 then -- operate
      match getInstructionName (wrap32 (total + operandOf b)) with
      | none =>
        DecodeOutcome.fail
          { m_addr := 0, m_size := size + 1, m_id := 0,
            m_valid := false, m_mnem := "", m_variantID := "", m_operands := [] }
      | some insnName =>
        DecodeOutcome.ok
          { m_addr := pc, m_size := size + 1,
            m_id := intOr OPR_MASK (if 0 < wrap32 (total + operandOf b)
              then wrap32 (total + operandOf b)
              else intOr (foldNeg (wrap32 (total + operandOf b))) OPR_SIGN),
            m_valid := true, m_mnem := insnName, m_variantID := toUpperStr insnName,
            m_operands := [] }
    else DecodeOutcome.assertFailed

/-- `ST20Decoder::decodeInstruction` on the byte stream starting at `pc`:
the loop starts with `total = 0` and `result.m_size = 0`
(ST20Decoder.cpp lines 92-95). -/
def decodeInstruction (pc : Int) (bytes : List Nat) : DecodeOutcome :=
  decodeLoop pc 0 0 bytes

/-- A byte whose function code continues the decode loop: `pfix` (2) or
`nfix` (6). -/
def isPrefixByte (b : Nat) : Bool :=
  functionCode b == 2 || functionCode b == 6

/-- One prefix step of the accumulator, exactly as the decode loop performs
it (ST20Decoder.cpp lines 145-152).  Only applied to prefix bytes. -/
def prefixStep (total : Int) (b : Nat) : Int :=
  if functionCode b = 2 then wrap32 ((total + operandOf b) * 16)
  else wrap32 ((total + Int.not (operandOf b)) * 16)

/-- The accumulator after a chain of prefix bytes. -/
def prefixAccum (total : Int) (ps : List Nat) : Int :=
  ps.foldl prefixStep total

/-- The total a chain of prefix bytes `ps` followed by terminal byte `t`
accumulates: the prefix accumulation followed by the terminal's
`total += oper`. -/
def termTotal (ps : List Nat) (t : Nat) : Int :=
  wrap32 (prefixAccum 0 ps + operandOf t)

/-- Modelled from the spec (§4.1): the left-shift-by-4, byte-wise
accumulation rule — prefix: `total = (total + operand) << 4`; negative
prefix: `total = (total + bitwiseComplement(operand)) << 4` — on the signed
32-bit accumulator (a left shift by 4 multiplies by `2 ^ 4`). -/
def specStep (total : Int) (b : Nat) : Int :=
  if functionCode b = 2 then wrap32 ((total + operandOf b) * 2 ^ 4)
  else wrap32 ((total + Int.not (operandOf b)) * 2 ^ 4)

/-- Modelled from the spec (§4.1): the accumulated total for a prefix chain
`ps` followed by terminal byte `t` — the terminal does `total += operand`. -/
def specTotal (ps : List Nat) (t : Nat) : Int :=
  wrap32 (List.foldl specStep 0 ps + operandOf t)

/-- The `result.m_size` an outcome reports, when the call returned at all. -/
def outcomeSize : DecodeOutcome → Option Nat
  | DecodeOutcome.ok r => some r.m_size
  | DecodeOutcome.fail r => some r.m_size
  | DecodeOutcome.oobRead _ => none
  | DecodeOutcome.assertFailed => none

/-- Whether an outcome is the `assert(false)` default branch. -/
def isAssertFailure : DecodeOutcome → Bool
  | DecodeOutcome.assertFailed => true
  | _ => false

/-- `QString(insn.m_variantID).remove(".")`: the variant identifier with
every period removed (ST20Decoder.cpp line 413); the separator punctuation
the SSL naming convention uses is the period. -/
def removeDots (s : String) : String :=
  String.mk (s.data.filter fun c => c ≠ '.')

/-- The RTL the lifter produces: the instruction's address, the dictionary
template selected by the sanitized key, and the instruction's operand list
substituted positionally into the template's parameter slots. -/
structure RTL where
  rtlAddr : Int
  template : String
  args : List Int
  deriving DecidableEq, Repr

/-- Modelled from the spec (§4.2): `RTLInstDict::instantiateRTL` — the
dictionary member the decoder calls is not among the repository's staged
files.  The dictionary is the set of template keys the SSL file defines; a
key with no entry is a miss (`none`, the C++ null RTL pointer); a hit
instantiates the template at the instruction's address with its operands
substituted positionally. -/
def dictInstantiateRTL (dict : List String) (key : String) (addr : Int)
    (ops : List Int) : Option RTL :=
  if key ∈ dict then some { rtlAddr := addr, template := key, args := ops }
  else none

/-- `QString::number(val, 16)` prepended by `0x`, as the debug trace renders
a large constant (ST20Decoder.cpp line 425). -/
def hexString (v : Int) : String :=
  (if v < 0 then "-" else "") ++ String.mk (Nat.toDigits 16 v.natAbs)

/-- One operand of the debug trace line: hexadecimal when `val > 100` or
`val < -100`, signed decimal otherwise (ST20Decoder.cpp lines 422-429). -/
def renderOperandTrace (v : Int) : String :=
  if v > 100 ∨ v < -100 then "0x" ++ hexString v else toString v

/-- The debug trace line `addr: variantID op1 op2 ...`
(ST20Decoder.cpp lines 416-438); the decoder's operands are all integer
constants. -/
def traceLine (insn : MachineInstruction) : String :=
  toString insn.m_addr ++ ": " ++ insn.m_variantID ++ " " ++
    String.intercalate " " (insn.m_operands.map renderOperandTrace)

/-- `ST20Decoder::instantiateRTL` (ST20Decoder.cpp lines 410-442): sanitize
the variant identifier (remove periods, upper-case), emit the debug trace
when the debug-decoder setting is on, and look the key up in the template
dictionary.  The pair's second component is the diagnostic output the call
writes to stdout. -/
def instantiateRTL (dict : List String) (debugDecoder : Bool)
    (insn : MachineInstruction) : Option RTL × List String :=
  ((dictInstantiateRTL dict (toUpperStr (removeDots insn.m_variantID))
      insn.m_addr insn.m_operands),
   if debugDecoder then [traceLine insn] else [])

/-- `ST20Decoder::liftInstruction` (ST20Decoder.cpp lines 216-223): the lift
succeeds exactly when `instantiateRTL` produced an RTL (`lifted.valid()`);
the decoded instruction itself is read-only (`const MachineInstruction &`)
and unchanged by lifting. -/
def liftInstruction (dict : List String) (debugDecoder : Bool)
    (insn : MachineInstruction) : Bool × Option RTL :=
  ((instantiateRTL dict debugDecoder insn).1.isSome,
   (instantiateRTL dict debugDecoder insn).1)

/-! ### Helper lemmas about the decode loop -/

theorem functionCode_le (b : Nat) : functionCode b ≤ 15 :=
  Nat.and_le_right

theorem specStep_eq_prefixStep (total : Int) (b : Nat) :
    specStep total b = prefixStep total b := by
  unfold specStep prefixStep
  norm_num

theorem specTotal_eq_termTotal (ps : List Nat) (t : Nat) :
    specTotal ps t = termTotal ps t := by
  have h : specStep = prefixStep := by
    funext a b
    exact specStep_eq_prefixStep a b
  rw [specTotal, termTotal, prefixAccum, h]

theorem decodeLoop_cons_pfix (pc total : Int) (size : Nat) (b : Nat)
    (rest : List Nat) (hb : isPrefixByte b = true) :
    decodeLoop pc total size (b :: rest) =
      decodeLoop pc (prefixStep total b) (size + 1) rest := by
  rw [isPrefixByte, Bool.or_eq_true, beq_iff_eq, beq_iff_eq] at hb
  rcases hb with h | h <;>
    simp [decodeLoop, prefixStep, h, isLoadFamilyCode]

theorem decodeLoop_append_pfix (ps : List Nat) (pc total : Int) (size : Nat)
    (rest : List Nat) (hps : ∀ b ∈ ps, isPrefixByte b = true) :
    decodeLoop pc total size (ps ++ rest) =
      decodeLoop pc (prefixAccum total ps) (size + ps.length) rest := by
  induction ps generalizing total size with
  | nil => simp [prefixAccum]
  | cons b ps ih =>
    have hb : isPrefixByte b = true := hps b (by simp)
    rw [List.cons_append, decodeLoop_cons_pfix pc total size b _ hb,
      ih (prefixStep total b) (size + 1) (fun x hx => hps x (by simp [hx]))]
    have hlen : size + 1 + ps.length = size + (b :: ps).length := by
      simp [List.length_cons]
      omega
    rw [hlen]
    rfl

theorem decodeLoop_cons_j (pc total : Int) (size : Nat) (t : Nat)
    (rest : List Nat) (ht : functionCode t = 0) :
    decodeLoop pc total size (t :: rest) =
      DecodeOutcome.ok
        { m_addr := pc, m_size := size + 1, m_id := 0, m_valid := true,
          m_mnem := "j", m_variantID := "J",
          m_operands := [pc + Int.ofNat (size + 1) + wrap32 (total + operandOf t)] } := by
  simp only [decodeLoop]
  rw [if_pos ht]

theorem decodeLoop_cons_load (pc total : Int) (size : Nat) (t : Nat)
    (rest : List Nat) (ht : isLoadFamilyCode (functionCode t)) :
    decodeLoop pc total size (t :: rest) =
      DecodeOutcome.ok
        { m_addr := pc, m_size := size + 1, m_id := Int.ofNat (functionCode t),
          m_valid := true,
          m_mnem := functionNames.getD (functionCode t) "",
          m_variantID := toUpperStr (functionNames.getD (functionCode t) ""),
          m_operands := [wrap32 (total + operandOf t)] } := by
  have h0 : ¬ functionCode t = 0 := by
    unfold isLoadFamilyCode at ht
    omega
  simp only [decodeLoop]
  rw [if_neg h0, if_pos ht]

theorem decodeLoop_cons_call (pc total : Int) (size : Nat) (t : Nat)
    (rest : List Nat) (ht : functionCode t = 9) :
    decodeLoop pc total size (t :: rest) =
      DecodeOutcome.ok
        { m_addr := pc, m_size := size + 1, m_id := 9, m_valid := true,
          m_mnem := "call", m_variantID := "CALL",
          m_operands := [pc + Int.ofNat (size + 1) + wrap32 (total + operandOf t)] } := by
  simp [decodeLoop, ht, isLoadFamilyCode]

theorem decodeLoop_cons_cj (pc total : Int) (size : Nat) (t : Nat)
    (rest : List Nat) (ht : functionCode t = 10) :
    decodeLoop pc total size (t :: rest) =
      DecodeOutcome.ok
        { m_addr := pc, m_size := size + 1, m_id := 10, m_valid := true,
          m_mnem := "cj", m_variantID := "CJ",
          m_operands := [pc + Int.ofNat (size + 1) + wrap32 (total + operandOf t)] } := by
  simp [decodeLoop, ht, isLoadFamilyCode]

theorem decodeLoop_cons_opr_miss (pc total : Int) (size : Nat) (t : Nat)
    (rest : List Nat) (ht : functionCode t = 15)
    (hm : getInstructionName (wrap32 (total + operandOf t)) = none) :
    decodeLoop pc total size (t :: rest) =
      DecodeOutcome.fail
        { m_addr := 0, m_size := size + 1, m_id := 0,
          m_valid := false, m_mnem := "", m_variantID := "", m_operands := [] } := by
  simp [decodeLoop, ht, isLoadFamilyCode, hm]

theorem decodeLoop_cons_opr_hit (pc total : Int) (size : Nat) (t : Nat)
    (rest : List Nat) (insnName : String) (ht : functionCode t = 15)
    (hm : getInstructionName (wrap32 (total + operandOf t)) = some insnName) :
    decodeLoop pc total size (t :: rest) =
      DecodeOutcome.ok
        { m_addr := pc, m_size := size + 1,
          m_id := intOr OPR_MASK (if 0 < wrap32 (total + operandOf t)
            then wrap32 (total + operandOf t)
            else intOr (foldNeg (wrap32 (total + operandOf t))) OPR_SIGN),
          m_valid := true, m_mnem := insnName, m_variantID := toUpperStr insnName,
          m_operands := [] } := by
  simp [decodeLoop, ht, isLoadFamilyCode, hm]

theorem wrap32_eq_self (x : Int) (h1 : -2147483648 ≤ x) (h2 : x < 2147483648) :
    wrap32 x = x := by
  unfold wrap32
  rw [Int.emod_eq_of_lt (by omega) (by omega)]
  omega

theorem decodeLoop_invariants (bytes : List Nat) (pc total : Int) (size : Nat) :
    (∀ r, decodeLoop pc total size bytes = DecodeOutcome.ok r →
      size < r.m_size ∧ r.m_valid = true)
    ∧ (∀ r, decodeLoop pc total size bytes = DecodeOutcome.fail r →
      size < r.m_size ∧ r.m_valid = false)
    ∧ isAssertFailure (decodeLoop pc total size bytes) = false := by
  induction bytes generalizing total size with
  | nil => simp [decodeLoop, isAssertFailure]
  | cons b rest ih =>
    have h15 : functionCode b ≤ 15 := functionCode_le b
    by_cases h0 : functionCode b = 0
    · rw [decodeLoop_cons_j pc total size b rest h0]
      refine ⟨?_, ?_, ?_⟩
      · intro r hr
        cases hr
        exact ⟨Nat.lt_succ_self size, rfl⟩
      · intro r hr
        exact DecodeOutcome.noConfusion hr
      · rfl
    by_cases hl : isLoadFamilyCode (functionCode b)
    · rw [decodeLoop_cons_load pc total size b rest hl]
      refine ⟨?_, ?_, ?_⟩
      · intro r hr
        cases hr
        exact ⟨Nat.lt_succ_self size, rfl⟩
      · intro r hr
        exact DecodeOutcome.noConfusion hr
      · rfl
    by_cases h2 : functionCode b = 2
    · have hb : isPrefixByte b = true := by simp [isPrefixByte, h2]
      rw [decodeLoop_cons_pfix pc total size b rest hb]
      refine ⟨?_, ?_, ((ih (prefixStep total b) (size + 1)).2.2)⟩
      · intro r hr
        have h := ((ih (prefixStep total b) (size + 1)).1) r hr
        exact ⟨by omega, h.2⟩
      · intro r hr
        have h := ((ih (prefixStep total b) (size + 1)).2.1) r hr
        exact ⟨by omega, h.2⟩
    by_cases h6 : functionCode b = 6
    · have hb : isPrefixByte b = true := by simp [isPrefixByte, h6]
      rw [decodeLoop_cons_pfix pc total size b rest hb]
      refine ⟨?_, ?_, ((ih (prefixStep total b) (size + 1)).2.2)⟩
      · intro r hr
        have h := ((ih (prefixStep total b) (size + 1)).1) r hr
        exact ⟨by omega, h.2⟩
      · intro r hr
        have h := ((ih (prefixStep total b) (size + 1)).2.1) r hr
        exact ⟨by omega, h.2⟩
    by_cases h9 : functionCode b = 9
    · rw [decodeLoop_cons_call pc total size b rest h9]
      refine ⟨?_, ?_, ?_⟩
      · intro r hr
        cases hr
        exact ⟨Nat.lt_succ_self size, rfl⟩
      · intro r hr
        exact DecodeOutcome.noConfusion hr
      · rfl
    by_cases h10 : functionCode b = 10
    · rw [decodeLoop_cons_cj pc total size b rest h10]
      refine ⟨?_, ?_, ?_⟩
      · intro r hr
        cases hr
        exact ⟨Nat.lt_succ_self size, rfl⟩
      · intro r hr
        exact DecodeOutcome.noConfusion hr
      · rfl
    by_cases hf : functionCode b = 15
    · cases hm : getInstructionName (wrap32 (total + operandOf b)) with
      | none =>
        rw [decodeLoop_cons_opr_miss pc total size b rest hf hm]
        refine ⟨?_, ?_, ?_⟩
        · intro r hr
          exact DecodeOutcome.noConfusion hr
        · intro r hr
          cases hr
          exact ⟨Nat.lt_succ_self size, rfl⟩
        · rfl
      | some nm =>
        rw [decodeLoop_cons_opr_hit pc total size b rest nm hf hm]
        refine ⟨?_, ?_, ?_⟩
        · intro r hr
          cases hr
          exact ⟨Nat.lt_succ_self size, rfl⟩
        · intro r hr
          exact DecodeOutcome.noConfusion hr
        · rfl
    · exfalso
      unfold isLoadFamilyCode at hl
      omega

theorem nat_or_and_absorb (m n : Nat) : (m ||| n) &&& m = m := by
  apply Nat.eq_of_testBit_eq
  intro i
  simp only [Nat.testBit_and, Nat.testBit_or]
  cases m.testBit i <;> simp

theorem natDiff_eq_ldiff (m n : Nat) : natDiff m n = Nat.ldiff m n := by
  apply Nat.eq_of_testBit_eq
  intro i
  simp only [natDiff, Nat.testBit_ldiff, Nat.testBit_and, Nat.testBit_xor]
  cases m.testBit i <;> cases n.testBit i <;> rfl

theorem intAnd_eq_land (x y : Int) : intAnd x y = Int.land x y := by
  cases x <;> cases y <;> simp [intAnd, Int.land, natDiff_eq_ldiff]

theorem intOr_eq_lor (x y : Int) : intOr x y = Int.lor x y := by
  cases x <;> cases y <;> simp [intOr, Int.lor, natDiff_eq_ldiff]

theorem nat_diff_diff_absorb (m n : Nat) :
    natDiff m (natDiff n m) = m := by
  rw [natDiff_eq_ldiff, natDiff_eq_ldiff]
  apply Nat.eq_of_testBit_eq
  intro i
  simp only [Nat.testBit_ldiff]
  cases m.testBit i <;> simp

/-- Bitwise absorption on `Int`: or-ing any value onto a non-negative mask
keeps every bit of the mask set. -/
theorem int_or_mask_absorb (m : Nat) (y : Int) :
    intAnd (intOr (Int.ofNat m) y) (Int.ofNat m) = Int.ofNat m := by
  cases y with
  | ofNat n =>
    show Int.ofNat ((m ||| n) &&& m) = Int.ofNat m
    rw [nat_or_and_absorb]
  | negSucc n =>
    show Int.ofNat (natDiff m (natDiff n m)) = Int.ofNat m
    rw [nat_diff_diff_absorb]

theorem outcomeSize_cons_term (pc total : Int) (size : Nat) (t : Nat)
    (rest : List Nat) (ht : isPrefixByte t = false) :
    outcomeSize (decodeLoop pc total size (t :: rest)) = some (size + 1) := by
  have h15 : functionCode t ≤ 15 := functionCode_le t
  have ht' : functionCode t ≠ 2 ∧ functionCode t ≠ 6 := by
    simpa [isPrefixByte] using ht
  by_cases h0 : functionCode t = 0
  · rw [decodeLoop_cons_j pc total size t rest h0]
    rfl
  by_cases hl : isLoadFamilyCode (functionCode t)
  · rw [decodeLoop_cons_load pc total size t rest hl]
    rfl
  by_cases h9 : functionCode t = 9
  · rw [decodeLoop_cons_call pc total size t rest h9]
    rfl
  by_cases h10 : functionCode t = 10
  · rw [decodeLoop_cons_cj pc total size t rest h10]
    rfl
  by_cases hf : functionCode t = 15
  · cases hm : getInstructionName (wrap32 (total + operandOf t)) with
    | none =>
      rw [decodeLoop_cons_opr_miss pc total size t rest hf hm]
      rfl
    | some nm =>
      rw [decodeLoop_cons_opr_hit pc total size t rest nm hf hm]
      rfl
  · exfalso
    unfold isLoadFamilyCode at hl
    omega

/-! ### The claims -/

/-- C9 (confirmed): every `decodeInstruction` call that returns — successfully
(`ok`, the function returned `true`) or not (`fail`, it returned `false`) —
reports an instruction length `result.m_size` of at least one byte, and on
success the validity flag `result.m_valid` is `true`. -/
theorem st20_decode_size_and_validity (pc : Int) (bytes : List Nat)
    (r : MachineInstruction)
    (h : decodeInstruction pc bytes = DecodeOutcome.ok r ∨
         decodeInstruction pc bytes = DecodeOutcome.fail r) :
    1 ≤ r.m_size ∧
      (decodeInstruction pc bytes = DecodeOutcome.ok r → r.m_valid = true) := by
  rcases h with h | h
  · have hi := (decodeLoop_invariants bytes pc 0 0).1 r h
    exact ⟨hi.1, fun _ => hi.2⟩
  · have hi := (decodeLoop_invariants bytes pc 0 0).2.1 r h
    refine ⟨hi.1, fun hok => ?_⟩
    rw [h] at hok
    exact DecodeOutcome.noConfusion hok

/-- Witness for C9: the one-byte stream `[0x40]` (`ldc 0`) decodes to a valid
instruction of length 1. -/
theorem st20_decode_size_and_validity_witness :
    1 ≤ (MachineInstruction.mk 0 1 4 true "ldc" "LDC" [0]).m_size ∧
      (decodeInstruction 0 [0x40] =
          DecodeOutcome.ok (MachineInstruction.mk 0 1 4 true "ldc" "LDC" [0]) →
        (MachineInstruction.mk 0 1 4 true "ldc" "LDC" [0]).m_valid = true) :=
  st20_decode_size_and_validity 0 [0x40]
    (MachineInstruction.mk 0 1 4 true "ldc" "LDC" [0]) (Or.inl (by decide))

/-- C10 (confirmed): the 4-bit function code `(byte >> 4) & 0xF` always lies
in `0..15`, and the decode switch handles all 16 values, so the
`assert(false)` default branch is unreachable for every input byte
sequence. -/
theorem st20_switch_exhaustive :
    (∀ b : Nat, functionCode b ≤ 15) ∧
      ∀ (pc : Int) (bytes : List Nat),
        isAssertFailure (decodeInstruction pc bytes) = false :=
  ⟨functionCode_le, fun pc bytes => (decodeLoop_invariants bytes pc 0 0).2.2⟩

/-- C5 evaluation (the code at the failing input): a byte stream that is all
prefix bytes does not produce a decode failure — `decodeInstruction` runs
its unconditional `Util::readByte` past the end of the stream (there is no
bounds check anywhere in the loop), modelled by the `oobRead` outcome. -/
theorem st20_truncated_chain_reads_past_end (pc : Int) (ps : List Nat)
    (hps : ∀ b ∈ ps, isPrefixByte b = true) :
    decodeInstruction pc ps = DecodeOutcome.oobRead ps.length := by
  have h := decodeLoop_append_pfix ps pc 0 0 [] hps
  rw [List.append_nil] at h
  rw [decodeInstruction, h]
  simp [decodeLoop]

/-- Witness for the C5 evaluation: the single prefix byte `0x20` at the end
of the stream is read past, not reported as a failure. -/
theorem st20_truncated_chain_reads_past_end_witness :
    decodeInstruction 0 [0x20] = DecodeOutcome.oobRead 1 :=
  st20_truncated_chain_reads_past_end 0 [0x20] (by decide)

/-- C6 (confirmed): for every negative accumulated total, the secondary-table
lookup first folds the total via `(~total & ~0xF) | (total & 0xF)` and looks
the folded value up in the negative-range table; every negative total whose
fold is `0x1F` resolves to `"iret"`. -/
theorem st20_negative_fold_lookup (total : Int) (hneg : total < 0) :
    getInstructionName total = negOpTable.lookup (foldNeg total)
    ∧ (foldNeg total = 0x1F → getInstructionName total = some "iret") := by
  have h : ¬ 0 ≤ total := not_le.mpr hneg
  refine ⟨by rw [getInstructionName, if_neg h], fun hf => ?_⟩
  rw [getInstructionName, if_neg h, hf]
  decide

/-- Witness for C6: `total = -17` (one `nfix 1` then `opr 15`) folds to
`0x1F` and resolves to `"iret"`. -/
theorem st20_negative_fold_lookup_witness :
    getInstructionName (-17) = negOpTable.lookup (foldNeg (-17))
    ∧ (foldNeg (-17) = 0x1F → getInstructionName (-17) = some "iret") :=
  st20_negative_fold_lookup (-17) (by decide)

/-- C2 (confirmed): when the terminal byte is the operate function code (15)
and the accumulated total misses both secondary tables
(`getInstructionName` is `none`), `decodeInstruction` reports failure as a
value — it sets `result.m_valid` to `false` and returns `false` (the `fail`
outcome) — and in particular never reaches the `assert(false)` branch,
whatever prefix bytes preceded and whatever bytes follow. -/
theorem st20_operate_table_miss_fails (pc : Int) (ps : List Nat) (t : Nat)
    (rest : List Nat) (hps : ∀ b ∈ ps, isPrefixByte b = true)
    (ht : functionCode t = 15)
    (hm : getInstructionName (termTotal ps t) = none) :
    decodeInstruction pc (ps ++ t :: rest) =
      DecodeOutcome.fail
        { m_addr := 0, m_size := ps.length + 1, m_id := 0, m_valid := false,
          m_mnem := "", m_variantID := "", m_operands := [] } := by
  have hkey := decodeLoop_append_pfix ps pc 0 0 (t :: rest) hps
  rw [Nat.zero_add] at hkey
  rw [termTotal] at hm
  rw [decodeInstruction, hkey,
    decodeLoop_cons_opr_miss pc (prefixAccum 0 ps) ps.length t rest ht hm]

/-- Witness for C2: `pfix 1` then `opr 1` accumulates `total = 0x11`, which
is in neither secondary table; the decode fails as a value. -/
theorem st20_operate_table_miss_fails_witness :
    decodeInstruction 0 [0x21, 0xF1] =
      DecodeOutcome.fail
        { m_addr := 0, m_size := 2, m_id := 0, m_valid := false,
          m_mnem := "", m_variantID := "", m_operands := [] } :=
  st20_operate_table_miss_fails 0 [0x21] 0xF1 [] (by decide) (by decide)
    (by decide)

theorem operandOf_bounds (t : Nat) : 0 ≤ operandOf t ∧ operandOf t ≤ 15 := by
  unfold operandOf
  exact ⟨Int.ofNat_nonneg _, Int.ofNat_le.mpr (@Nat.and_le_right t 15)⟩

/-- C1 (confirmed): a chain of N prefix (`pfix`, code 2) or negative-prefix
(`nfix`, code 6) bytes followed by one terminal byte consumes exactly N+1
bytes (`result.m_size = N+1`); the accumulated total equals the
left-shift-by-4 byte-wise accumulation of the spec (`specTotal`, with the
terminal byte adding its low 4 bits); for a load/store/arithmetic-immediate
terminal the decoded operand is that total, and for a single such terminal
byte exactly one byte is consumed and the operand is the byte's low 4
bits. -/
theorem st20_prefix_accumulation (pc : Int) (ps : List Nat) (t : Nat)
    (rest : List Nat) (hps : ∀ b ∈ ps, isPrefixByte b = true)
    (ht : isPrefixByte t = false) :
    outcomeSize (decodeInstruction pc (ps ++ t :: rest)) = some (ps.length + 1)
    ∧ termTotal ps t = specTotal ps t
    ∧ (isLoadFamilyCode (functionCode t) →
        decodeInstruction pc (ps ++ t :: rest) =
          DecodeOutcome.ok
            { m_addr := pc, m_size := ps.length + 1,
              m_id := Int.ofNat (functionCode t), m_valid := true,
              m_mnem := functionNames.getD (functionCode t) "",
              m_variantID := toUpperStr (functionNames.getD (functionCode t) ""),
              m_operands := [termTotal ps t] })
    ∧ (isLoadFamilyCode (functionCode t) →
        decodeInstruction pc [t] =
          DecodeOutcome.ok
            { m_addr := pc, m_size := 1,
              m_id := Int.ofNat (functionCode t), m_valid := true,
              m_mnem := functionNames.getD (functionCode t) "",
              m_variantID := toUpperStr (functionNames.getD (functionCode t) ""),
              m_operands := [operandOf t] }) := by
  have hkey := decodeLoop_append_pfix ps pc 0 0 (t :: rest) hps
  rw [Nat.zero_add] at hkey
  refine ⟨?_, (specTotal_eq_termTotal ps t).symm, ?_, ?_⟩
  · rw [decodeInstruction, hkey, outcomeSize_cons_term pc _ ps.length t rest ht]
  · intro hl
    rw [decodeInstruction, hkey, decodeLoop_cons_load pc _ ps.length t rest hl]
    rfl
  · intro hl
    rw [decodeInstruction, decodeLoop_cons_load pc 0 0 t [] hl]
    have hop : wrap32 (0 + operandOf t) = operandOf t := by
      obtain ⟨h1, h2⟩ := operandOf_bounds t
      rw [Int.zero_add]
      exact wrap32_eq_self _ (by omega) (by omega)
    rw [hop]

/-- Witness for C1: `pfix 1` then `ldc 7` (bytes `0x21 0x47`) consumes two
bytes and accumulates `(0+1)<<4 + 7 = 23`; the single byte `0x47` alone
decodes with operand `7`. -/
theorem st20_prefix_accumulation_witness :
    outcomeSize (decodeInstruction 0 ([0x21] ++ 0x47 :: [])) = some 2
    ∧ termTotal [0x21] 0x47 = specTotal [0x21] 0x47
    ∧ decodeInstruction 0 ([0x21] ++ 0x47 :: []) =
        DecodeOutcome.ok
          { m_addr := 0, m_size := 2, m_id := 4, m_valid := true,
            m_mnem := "ldc", m_variantID := "LDC", m_operands := [23] }
    ∧ decodeInstruction 0 [0x47] =
        DecodeOutcome.ok
          { m_addr := 0, m_size := 1, m_id := 4, m_valid := true,
            m_mnem := "ldc", m_variantID := "LDC", m_operands := [7] } :=
  ⟨(st20_prefix_accumulation 0 [0x21] 0x47 [] (by decide) (by decide)).1,
   (st20_prefix_accumulation 0 [0x21] 0x47 [] (by decide) (by decide)).2.1,
   (st20_prefix_accumulation 0 [0x21] 0x47 [] (by decide) (by decide)).2.2.1
     (by decide),
   (st20_prefix_accumulation 0 [0x21] 0x47 [] (by decide) (by decide)).2.2.2
     (by decide)⟩

/-- C4 (confirmed): for every decoded unconditional-jump (`j`), call, or
conditional-jump (`cj`) instruction, the destination operand equals
`instructionAddress + bytesConsumed + total`; in particular the 3-byte input
`[0x22, 0x20, 0x93]` (`pfix 2`, `pfix 0`, `call 3`) decodes to one length-3
call whose target is `pc + 3 + total` with `total = 0x203`. -/
theorem st20_branch_destination (pc : Int) (ps : List Nat) (t : Nat)
    (rest : List Nat) (hps : ∀ b ∈ ps, isPrefixByte b = true)
    (ht : functionCode t = 0 ∨ functionCode t = 9 ∨ functionCode t = 10) :
    (∃ r, decodeInstruction pc (ps ++ t :: rest) = DecodeOutcome.ok r ∧
      r.m_size = ps.length + 1 ∧
      r.m_operands = [pc + Int.ofNat (ps.length + 1) + termTotal ps t])
    ∧ ∃ r, decodeInstruction pc [0x22, 0x20, 0x93] = DecodeOutcome.ok r ∧
        r.m_size = 3 ∧ r.m_variantID = "CALL" ∧
        r.m_operands = [pc + 3 + termTotal [0x22, 0x20] 0x93] ∧
        termTotal [0x22, 0x20] 0x93 = 0x203 := by
  have hkey := decodeLoop_append_pfix ps pc 0 0 (t :: rest) hps
  rw [Nat.zero_add] at hkey
  constructor
  · rw [decodeInstruction, hkey]
    rcases ht with h | h | h
    · rw [decodeLoop_cons_j pc _ ps.length t rest h]
      exact ⟨_, rfl, rfl, rfl⟩
    · rw [decodeLoop_cons_call pc _ ps.length t rest h]
      exact ⟨_, rfl, rfl, rfl⟩
    · rw [decodeLoop_cons_cj pc _ ps.length t rest h]
      exact ⟨_, rfl, rfl, rfl⟩
  · have h2 : decodeInstruction pc [0x22, 0x20, 0x93] =
        decodeLoop pc (prefixAccum 0 [0x22, 0x20]) 2 [0x93] := by
      have hk := decodeLoop_append_pfix [0x22, 0x20] pc 0 0 [0x93] (by decide)
      rw [decodeInstruction]
      exact hk
    rw [h2, decodeLoop_cons_call pc _ 2 0x93 [] (by decide)]
    exact ⟨_, rfl, rfl, rfl, rfl, by decide⟩

/-- Witness for C4: the general destination rule at the concrete input
`pfix 2, pfix 0, call 3` from address 100. -/
theorem st20_branch_destination_witness :
    (∃ r, decodeInstruction 100 ([0x22, 0x20] ++ 0x93 :: []) =
        DecodeOutcome.ok r ∧
      r.m_size = 3 ∧
      r.m_operands = [100 + Int.ofNat 3 + termTotal [0x22, 0x20] 0x93])
    ∧ ∃ r, decodeInstruction 100 [0x22, 0x20, 0x93] = DecodeOutcome.ok r ∧
        r.m_size = 3 ∧ r.m_variantID = "CALL" ∧
        r.m_operands = [100 + 3 + termTotal [0x22, 0x20] 0x93] ∧
        termTotal [0x22, 0x20] 0x93 = 0x203 :=
  st20_branch_destination 100 [0x22, 0x20] 0x93 [] (by decide)
    (by decide)

/-- C3 counterexample: the single byte `0xF0` (`opr` with operand 0)
accumulates the non-negative total 0 and decodes successfully (`rev`), but
its `m_id` is `-16`, not `OPR_MASK | 0 = 65536` as the claim's
"for every non-negative total" formula requires — the code tests
`total > 0`, so total 0 takes the negative-fold branch. -/
theorem st20_opr_id_counterexample :
    decodeInstruction 0 [0xF0] =
      DecodeOutcome.ok
        { m_addr := 0, m_size := 1, m_id := -16, m_valid := true,
          m_mnem := "rev", m_variantID := "REV", m_operands := [] }
    ∧ 0 ≤ termTotal [] 0xF0
    ∧ (-16 : Int) ≠ intOr OPR_MASK (termTotal [] 0xF0) :=
  ⟨by decide, by decide, by decide⟩

/-- C3 amended (corrected): for every successfully decoded operate-class
instruction, `m_id` combines `OPR_MASK` with, for every *positive* total,
the total itself and, for every *non-positive* total (zero included), the
folded value `(~total & ~0xF) | (total & 0xF)` together with `OPR_SIGN`;
the `OPR_MASK` bit of `m_id` is always set, while a primary (non-operate)
opcode's `m_id` is the 4-bit function code itself, in `0..15`, with neither
marker bit set. -/
theorem st20_opr_id_encoding (pc : Int) (ps : List Nat) (t : Nat)
    (rest : List Nat) (r : MachineInstruction)
    (hps : ∀ b ∈ ps, isPrefixByte b = true) (ht : isPrefixByte t = false)
    (hok : decodeInstruction pc (ps ++ t :: rest) = DecodeOutcome.ok r) :
    (functionCode t = 15 →
      r.m_id = intOr OPR_MASK (if 0 < termTotal ps t then termTotal ps t
        else intOr (foldNeg (termTotal ps t)) OPR_SIGN)
      ∧ intAnd r.m_id OPR_MASK = OPR_MASK)
    ∧ (functionCode t ≠ 15 →
      r.m_id = Int.ofNat (functionCode t) ∧ 0 ≤ r.m_id ∧ r.m_id ≤ 15) := by
  have hkey := decodeLoop_append_pfix ps pc 0 0 (t :: rest) hps
  rw [Nat.zero_add] at hkey
  rw [decodeInstruction, hkey] at hok
  have h15 : functionCode t ≤ 15 := functionCode_le t
  have ht' : functionCode t ≠ 2 ∧ functionCode t ≠ 6 := by
    simpa [isPrefixByte] using ht
  by_cases h0 : functionCode t = 0
  · rw [decodeLoop_cons_j pc _ ps.length t rest h0] at hok
    cases hok
    refine ⟨fun hf => absurd (h0.symm.trans hf) (by decide), fun _ => ?_⟩
    rw [h0]
    exact ⟨rfl, by norm_num, by norm_num⟩
  by_cases hl : isLoadFamilyCode (functionCode t)
  · rw [decodeLoop_cons_load pc _ ps.length t rest hl] at hok
    cases hok
    have hne : functionCode t ≠ 15 := by
      unfold isLoadFamilyCode at hl
      omega
    refine ⟨fun hf => absurd hf hne, fun _ => ?_⟩
    exact ⟨rfl, Int.ofNat_nonneg _, Int.ofNat_le.mpr h15⟩
  by_cases h9 : functionCode t = 9
  · rw [decodeLoop_cons_call pc _ ps.length t rest h9] at hok
    cases hok
    refine ⟨fun hf => absurd (h9.symm.trans hf) (by decide), fun _ => ?_⟩
    rw [h9]
    exact ⟨rfl, by norm_num, by norm_num⟩
  by_cases h10 : functionCode t = 10
  · rw [decodeLoop_cons_cj pc _ ps.length t rest h10] at hok
    cases hok
    refine ⟨fun hf => absurd (h10.symm.trans hf) (by decide), fun _ => ?_⟩
    rw [h10]
    exact ⟨rfl, by norm_num, by norm_num⟩
  by_cases hf : functionCode t = 15
  · cases hm : getInstructionName (wrap32 (prefixAccum 0 ps + operandOf t)) with
    | none =>
      rw [decodeLoop_cons_opr_miss pc _ ps.length t rest hf hm] at hok
      exact DecodeOutcome.noConfusion hok
    | some nm =>
      rw [decodeLoop_cons_opr_hit pc _ ps.length t rest nm hf hm] at hok
      cases hok
      refine ⟨fun _ => ⟨rfl, int_or_mask_absorb 65536 _⟩, fun hne => absurd hf hne⟩
  · exfalso
    unfold isLoadFamilyCode at hl
    omega

/-- Witness for the amended C3: the byte `0xF5` (`opr 5`, `add`) has
positive total 5 and `m_id = OPR_MASK | 5 = 65541` with the `OPR_MASK` bit
set. -/
theorem st20_opr_id_encoding_witness :
    (MachineInstruction.mk 0 1 65541 true "add" "ADD" []).m_id =
      intOr OPR_MASK (if 0 < termTotal [] 0xF5 then termTotal [] 0xF5
        else intOr (foldNeg (termTotal [] 0xF5)) OPR_SIGN)
    ∧ intAnd (MachineInstruction.mk 0 1 65541 true "add" "ADD" []).m_id
        OPR_MASK = OPR_MASK :=
  (st20_opr_id_encoding 0 [] 0xF5 []
    (MachineInstruction.mk 0 1 65541 true "add" "ADD" [])
    (by decide) (by decide) (by decide)).1 (by decide)

/-- C7 (confirmed): the template-dictionary lookup key is the instruction's
variant identifier with every separator punctuation character removed (the
period, the one separator the code strips) and converted to upper case; a
dictionary miss is a lift failure — `liftInstruction` returns `false` with a
null RTL — distinct from a decode failure: the lifter takes the decoded
instruction by const reference, so the instruction itself (validity flag
included) is unchanged by the failed lift. -/
theorem st20_lift_key_and_miss (dict : List String) (dbg : Bool)
    (insn : MachineInstruction) :
    (liftInstruction dict dbg insn).2 =
      dictInstantiateRTL dict (toUpperStr (removeDots insn.m_variantID))
        insn.m_addr insn.m_operands
    ∧ ((liftInstruction dict dbg insn).1 = true ↔
        toUpperStr (removeDots insn.m_variantID) ∈ dict)
    ∧ (toUpperStr (removeDots insn.m_variantID) ∉ dict →
        (liftInstruction dict dbg insn).1 = false ∧
          (liftInstruction dict dbg insn).2 = none) := by
  unfold liftInstruction instantiateRTL dictInstantiateRTL
  by_cases h : toUpperStr (removeDots insn.m_variantID) ∈ dict <;> simp [h]

/-- C8 (confirmed): the RTL produced by lifting is identical whether the
debug-decoder mode is enabled or disabled; the debug trace — rendered in
hexadecimal when the operand's absolute value exceeds 100 and in signed
decimal otherwise — is diagnostic output only. -/
theorem st20_debug_trace_no_effect (dict : List String)
    (insn : MachineInstruction) :
    (instantiateRTL dict true insn).1 = (instantiateRTL dict false insn).1
    ∧ liftInstruction dict true insn = liftInstruction dict false insn
    ∧ (instantiateRTL dict true insn).2 = [traceLine insn]
    ∧ (instantiateRTL dict false insn).2 = []
    ∧ ∀ v : Int, renderOperandTrace v =
        if 100 < |v| then "0x" ++ hexString v else toString v := by
  refine ⟨rfl, rfl, rfl, rfl, fun v => ?_⟩
  have hiff : (v > 100 ∨ v < -100) ↔ 100 < |v| := by
    rw [lt_abs]
    constructor <;> rintro (h | h)
    · exact Or.inl h
    · exact Or.inr (by omega)
    · exact Or.inl h
    · exact Or.inr (by omega)
  unfold renderOperandTrace
  exact if_congr hiff rfl rfl
